import Mathlib

/-!
Shallow embedding of the bifrost vtoken-mint pallet
(src/brml/vtoken-mint/src/lib.rs).

Balances and block numbers are modelled as Nat (an arbitrary-precision
non-negative integer, so saturating_add and saturating_mul are plain + and *,
and saturating_sub is truncated Nat subtraction).  The Substrate storage maps
BncMint, VtokenWeightScore and VtokenWeightMint are modelled as association
lists whose order stands for the (hash-determined) iteration order of the real
maps; theorems quantify over that order.  The external currency service
deposit_into_existing is modelled as an oracle `dep : account -> amount -> Bool`
telling whether a deposit succeeds, and each operation additionally reports the
list of deposits that actually took effect.  Division of balances in the source
is Rust integer division, which panics when the divisor is zero; in
issue_bnc_by_weight the divisor total_score is not guarded by a check, so the
weighted path is modelled with an outer Option, none standing for the panic.
-/

namespace VtokenMint

/-- Errors of the module, from decl_error in lib.rs. -/
inductive MintError where
  | MinterNotExist
  | BncAmountNotExist
  | AssetScoreNotExist
  | PledgeAmountNotEnough
  | DepositBncFailure
  deriving DecidableEq, Repr

/-- Lookup in an association-list map with a default value
(Substrate ValueQuery storage map semantics). -/
def mapGet {κ α : Type} [DecidableEq κ] (m : List (κ × α)) (d : α) (k : κ) : α :=
  match m with
  | [] => d
  | (k₀, v) :: rest => if k₀ = k then v else mapGet rest d k

/-- contains_key of a storage map. -/
def mapContains {κ α : Type} [DecidableEq κ] (m : List (κ × α)) (k : κ) : Bool :=
  match m with
  | [] => false
  | (k₀, _) :: rest => if k₀ = k then true else mapContains rest k

/-- StorageMap::mutate with ValueQuery semantics: the closure is applied to the
stored value, or to the default value when the key is absent, in which case the
entry is created. -/
def mapMutate {κ α : Type} [DecidableEq κ] (m : List (κ × α)) (d : α) (k : κ)
    (f : α → α) : List (κ × α) :=
  match m with
  | [] => [(k, f d)]
  | (k₀, v) :: rest => if k₀ = k then (k₀, f v) :: rest else (k₀, v) :: mapMutate rest d k f

/-- The contains_key / mutate / insert pattern both mint recorders use:
saturating-add v to the entry at k, creating it at v if absent. -/
def mapAdd {κ : Type} [DecidableEq κ] (m : List (κ × Nat)) (k : κ) (v : Nat) :
    List (κ × Nat) :=
  if mapContains m k then mapMutate m 0 k (fun w => w + v) else m ++ [(k, v)]

/-- Floor of the binary logarithm with explicit fuel, so that the kernel can
evaluate it structurally; log2Fuel fuel n agrees with Nat.log 2 n whenever
n is at most fuel. -/
def log2Fuel : Nat → Nat → Nat
  | 0, _ => 0
  | fuel + 1, n => if 2 ≤ n then log2Fuel fuel (n / 2) + 1 else 0

/-- Floor of the binary logarithm of a positive integer (0 at 0). -/
def intLog2 (n : Nat) : Nat := log2Fuel n n

/-- Fix::checked_int_log2 on a non-negative integer value: none on zero,
otherwise the floor of the binary logarithm. -/
def checkedIntLog2 (x : Nat) : Option Nat :=
  if x = 0 then none else some (intLog2 x)

/-- The storage of the pallet (decl_storage in lib.rs):
BncSum, BncPrice = (record block, price), BncMonitor = ((last trigger block,
recorded watermark), max single mint seen, pending tx count), BncMint,
VtokenWeightScore (assetId to (base score, adjust score)) and VtokenWeightMint
(keyed by (assetId, accountId)). -/
structure MintState where
  bncSum : Nat
  bncPrice : Nat × Nat
  bncMonitor : (Nat × Nat) × Nat × Nat
  bncMint : List (Nat × Nat)
  vtokenWeightScore : List (Nat × Nat × Nat)
  vtokenWeightMint : List ((Nat × Nat) × Nat)
  deriving DecidableEq, Repr

/-- count_bnc: saturating-add the generated amount into BncSum. -/
def count_bnc (generateAmount : Nat) (s : MintState) : MintState :=
  { s with bncSum := s.bncSum + generateAmount }

/-- Sum of the values of a credit map, as the source folds with
saturating_add over the iterator. -/
def creditSum (l : List (Nat × Nat)) : Nat := (l.map Prod.snd).sum

/-- Sum of base + adjust over all VtokenWeightScore entries (total_score). -/
def scoreSum (l : List (Nat × Nat × Nat)) : Nat := (l.map (fun e => e.2.1 + e.2.2)).sum

/-- iter_prefix of the double map: the (accountId, credit) entries under one
assetId, in map order. -/
def assetEntries (m : List ((Nat × Nat) × Nat)) (assetId : Nat) : List (Nat × Nat) :=
  (m.filter (fun e => decide (e.1.1 = assetId))).map (fun e => (e.1.2, e.2))

/-- mint_bnc_by_weight: requires a VtokenWeightScore entry for the asset,
then credits the (asset, minter) entry, raises the max-single-mint watermark
when exceeded, and increments the pending tx count. -/
def mint_bnc_by_weight (minter mintAmount assetId : Nat) (s : MintState) :
    Except MintError Unit × MintState :=
  if mapContains s.vtokenWeightScore assetId then
    let mint₁ := mapAdd s.vtokenWeightMint (assetId, minter) mintAmount
    let mon := s.bncMonitor
    let maxVal := if mintAmount > mon.2.1 then mintAmount else mon.2.1
    (.ok (), { s with vtokenWeightMint := mint₁,
                      bncMonitor := (mon.1, maxVal, mon.2.2 + 1) })
  else (.error .AssetScoreNotExist, s)

/-- improve_v_token_weight: requires pledge_amount > PledgeBaseAmount, then
mutates the VtokenWeightScore entry (created at the default (0, 0) when
absent), saturating-adding the integer log2 of the pledge delta to the
adjust score. -/
def improve_v_token_weight (baseAmount assetId pledgeAmount : Nat) (s : MintState) :
    Except MintError Unit × MintState :=
  if pledgeAmount > baseAmount then
    let score₁ := mapMutate s.vtokenWeightScore (0, 0) assetId (fun bv =>
      match checkedIntLog2 (pledgeAmount - baseAmount) with
      | some x => (bv.1, bv.2 + x)
      | none => bv)
    (.ok (), { s with vtokenWeightScore := score₁ })
  else (.error .PledgeAmountNotEnough, s)

/-- withdraw_v_token_pledge: like improve_v_token_weight but
saturating-subtracting the log2 delta from the adjust score. -/
def withdraw_v_token_pledge (baseAmount assetId pledgeAmount : Nat) (s : MintState) :
    Except MintError Unit × MintState :=
  if pledgeAmount > baseAmount then
    let score₁ := mapMutate s.vtokenWeightScore (0, 0) assetId (fun bv =>
      match checkedIntLog2 (pledgeAmount - baseAmount) with
      | some x => (bv.1, bv.2 - x)
      | none => bv)
    (.ok (), { s with vtokenWeightScore := score₁ })
  else (.error .PledgeAmountNotEnough, s)

/-- Outcome of a distribution round: the result, the storage afterwards, and
the deposits that actually reached the currency service (externally visible
even when the round fails part-way). -/
structure IssueOutcome where
  res : Except MintError Unit
  st : MintState
  payouts : List (Nat × Nat)
  deriving Repr

/-- The payout loop shared by both distribution rounds: each entry (minter,
point) is paid point * pool / total, zero rewards are skipped, and the loop
aborts at the first deposit the oracle refuses, keeping earlier deposits. -/
def payEach (dep : Nat → Nat → Bool) (pool total : Nat) :
    List (Nat × Nat) → Bool × List (Nat × Nat)
  | [] => (true, [])
  | (minter, point) :: rest =>
    let reward := point * pool / total
    if reward = 0 then payEach dep pool total rest
    else if dep minter reward then
      let r := payEach dep pool total rest
      (r.1, (minter, reward) :: r.2)
    else (false, [])

/-- issue_bnc, the flat distribution round. -/
def issue_bnc (dep : Nat → Nat → Bool) (s : MintState) : IssueOutcome :=
  if s.bncSum = 0 then ⟨.error .BncAmountNotExist, s, []⟩
  else
    let pool := s.bncSum
    let total := creditSum s.bncMint
    if total = 0 then ⟨.error .MinterNotExist, s, []⟩
    else
      let r := payEach dep pool total s.bncMint
      if r.1 then
        ⟨.ok (), { s with bncSum := 0, bncMint := [], bncMonitor := ((0, 0), 0, 0) }, r.2⟩
      else ⟨.error .DepositBncFailure, s, r.2⟩

/-- The asset loop of issue_bnc_by_weight: each asset gets share
(base + adjust) * pool / totalScore; an asset whose participant credit sum is
zero is skipped entirely; otherwise its participants are paid by payEach, and
a refused deposit aborts the whole round. -/
def payAssets (dep : Nat → Nat → Bool) (pool totalScore : Nat)
    (mintMap : List ((Nat × Nat) × Nat)) :
    List (Nat × Nat × Nat) → Bool × List (Nat × Nat)
  | [] => (true, [])
  | (assetId, baseScore, adjustScore) :: rest =>
    let vTokenReward := (baseScore + adjustScore) * pool / totalScore
    let entries := assetEntries mintMap assetId
    let vTokenPoint := creditSum entries
    if vTokenPoint = 0 then payAssets dep pool totalScore mintMap rest
    else
      let r := payEach dep vTokenReward vTokenPoint entries
      if r.1 then
        let r₂ := payAssets dep pool totalScore mintMap rest
        (r₂.1, r.2 ++ r₂.2)
      else (false, r.2)

/-- issue_bnc_by_weight, the weighted distribution round.  none models the
Rust panic of dividing by total_score = 0, reached exactly when the score map
is non-empty with all-zero weights and the pool check has passed. -/
def issue_bnc_by_weight (dep : Nat → Nat → Bool) (s : MintState) : Option IssueOutcome :=
  if s.bncSum = 0 then some ⟨.error .BncAmountNotExist, s, []⟩
  else
    let totalScore := scoreSum s.vtokenWeightScore
    if s.vtokenWeightScore ≠ [] ∧ totalScore = 0 then none
    else
      let r := payAssets dep s.bncSum totalScore s.vtokenWeightMint s.vtokenWeightScore
      if r.1 then
        some ⟨.ok (), { s with bncSum := 0, vtokenWeightMint := [],
                               bncMonitor := ((0, 0), 0, 0) }, r.2⟩
      else some ⟨.error .DepositBncFailure, s, r.2⟩

/-- The watermark update at the end of on_finalize: when the max single mint
read before the trigger check exceeds the recorded watermark, the last trigger
block and the watermark are set; the tx count is untouched. -/
def monitorBump (currentBlock maxMint recordedMint : Nat) (s : MintState) : MintState :=
  if maxMint > recordedMint then
    { s with bncMonitor := ((currentBlock, maxMint), s.bncMonitor.2.1, s.bncMonitor.2.2) }
  else s

/-- The body of the trigger branch of on_finalize: run issue_bnc_by_weight;
on success return at once (the Bool true records that the distribution engine
was invoked); on error fall through to the watermark update on the untouched
state; propagate the panic. -/
def triggerIssue (dep : Nat → Nat → Bool) (currentBlock maxMint recordedMint : Nat)
    (s₂ : MintState) : Option (MintState × Bool × List (Nat × Nat)) :=
  match issue_bnc_by_weight dep s₂ with
  | none => none
  | some r =>
    match r.res with
    | .ok _ => some (r.st, true, r.payouts)
    | .error _ => some (monitorBump currentBlock maxMint recordedMint r.st, true, r.payouts)

/-- on_finalize: early return on zero price; otherwise maybe halve the price,
accrue it into BncSum, evaluate the trigger condition with Rust operator
precedence, run issue_bnc_by_weight when triggered (returning on success,
falling through on error), and finally maybe bump the watermark.  The Bool in
the result records whether the distribution engine was invoked; the payout
list records the deposits made. -/
def on_finalize (dep : Nat → Nat → Bool)
    (priceHalfBlockInterval maxIssueBlockInterval maxTxAmount : Nat)
    (currentBlockNumber : Nat) (s : MintState) :
    Option (MintState × Bool × List (Nat × Nat)) :=
  let recordBlockNumber := s.bncPrice.1
  let currentBncPrice := s.bncPrice.2
  if currentBncPrice = 0 then some (s, false, [])
  else
    let s₁ :=
      if currentBlockNumber - recordBlockNumber = priceHalfBlockInterval then
        { s with bncPrice := (currentBlockNumber, currentBncPrice / 2) }
      else s
    let s₂ := count_bnc s₁.bncPrice.2 s₁
    let mon := s₂.bncMonitor
    if (currentBlockNumber - mon.1.1 = maxIssueBlockInterval ∧ s₂.bncSum ≠ 0 ∧ mon.2.1 ≠ 0)
        ∨ mon.2.2 ≥ maxTxAmount then
      triggerIssue dep currentBlockNumber mon.2.1 mon.1.2 s₂
    else some (monitorBump currentBlockNumber mon.2.1 mon.1.2 s₂, false, [])

/-- Running on_finalize over a sequence of block numbers, stopping at a panic. -/
def finalizeSeq (dep : Nat → Nat → Bool) (ph mi mt : Nat) :
    List Nat → MintState → Option MintState
  | [], s => some s
  | b :: bs, s =>
    match on_finalize dep ph mi mt b s with
    | none => none
    | some (s₁, _, _) => finalizeSeq dep ph mi mt bs s₁

/-- The payouts of one flat round when every deposit succeeds: each entry
(minter, c) is paid c * pool / total, zero payouts skipped. -/
def flatPayouts (pool total : Nat) : List (Nat × Nat) → List (Nat × Nat)
  | [] => []
  | (minter, point) :: rest =>
    let reward := point * pool / total
    if reward = 0 then flatPayouts pool total rest
    else (minter, reward) :: flatPayouts pool total rest

/-- The payouts of one weighted round when every deposit succeeds: for each
asset in score-map order, its share is (base + adjust) * pool / totalScore,
skipped entirely when the participant credit sum under the asset is zero,
otherwise distributed pro rata among its participants. -/
def weightedPayouts (pool totalScore : Nat) (mintMap : List ((Nat × Nat) × Nat)) :
    List (Nat × Nat × Nat) → List (Nat × Nat)
  | [] => []
  | (assetId, baseScore, adjustScore) :: rest =>
    let share := (baseScore + adjustScore) * pool / totalScore
    let entries := assetEntries mintMap assetId
    let p := creditSum entries
    if p = 0 then weightedPayouts pool totalScore mintMap rest
    else flatPayouts share p entries ++ weightedPayouts pool totalScore mintMap rest

/-! ### Association-list map lemmas -/

theorem mapGet_mapMutate {κ α : Type} [DecidableEq κ] (m : List (κ × α)) (d : α) (k : κ)
    (f : α → α) : mapGet (mapMutate m d k f) d k = f (mapGet m d k) := by
  induction m with
  | nil => simp [mapMutate, mapGet]
  | cons e rest ih =>
    obtain ⟨k₀, v⟩ := e
    by_cases h : k₀ = k <;> simp [mapMutate, mapGet, h, ih]

theorem mapContains_mapMutate {κ α : Type} [DecidableEq κ] (m : List (κ × α)) (d : α)
    (k : κ) (f : α → α) : mapContains (mapMutate m d k f) k = true := by
  induction m with
  | nil => simp [mapMutate, mapContains]
  | cons e rest ih =>
    obtain ⟨k₀, v⟩ := e
    by_cases h : k₀ = k <;> simp [mapMutate, mapContains, h, ih]

theorem mapGet_of_not_contains {κ α : Type} [DecidableEq κ] (m : List (κ × α)) (d : α)
    (k : κ) (h : mapContains m k = false) : mapGet m d k = d := by
  induction m with
  | nil => simp [mapGet]
  | cons e rest ih =>
    obtain ⟨k₀, v⟩ := e
    by_cases hk : k₀ = k
    · simp [mapContains, hk] at h
    · simp [mapContains, hk] at h
      simp [mapGet, hk, ih h]

theorem mapGet_append_of_not_contains {κ α : Type} [DecidableEq κ] (m l : List (κ × α))
    (d : α) (k : κ) (h : mapContains m k = false) :
    mapGet (m ++ l) d k = mapGet l d k := by
  induction m with
  | nil => simp
  | cons e rest ih =>
    obtain ⟨k₀, v⟩ := e
    by_cases hk : k₀ = k
    · simp [mapContains, hk] at h
    · simp [mapContains, hk] at h
      simp [mapGet, hk, ih h]

theorem mapGet_mapAdd {κ : Type} [DecidableEq κ] (m : List (κ × Nat)) (k : κ) (v : Nat) :
    mapGet (mapAdd m k v) 0 k = mapGet m 0 k + v := by
  unfold mapAdd
  by_cases h : mapContains m k
  · simp [h, mapGet_mapMutate]
  · rw [if_neg h]
    rw [mapGet_append_of_not_contains m _ 0 k (Bool.of_not_eq_true h)]
    rw [mapGet_of_not_contains m 0 k (Bool.of_not_eq_true h)]
    simp [mapGet]

theorem log2Fuel_eq_log (fuel n : Nat) (h : n ≤ fuel) : log2Fuel fuel n = Nat.log 2 n := by
  induction fuel generalizing n with
  | zero =>
    have hn : n = 0 := by omega
    subst hn
    simp [log2Fuel]
  | succ fuel ih =>
    by_cases h₂ : 2 ≤ n
    · have hdiv : n / 2 ≤ fuel := by
        have := Nat.div_lt_self (by omega : 0 < n) (by omega : 1 < 2)
        omega
      rw [log2Fuel, if_pos h₂, ih _ hdiv, Nat.log_of_one_lt_of_le (by omega) h₂]
    · rw [log2Fuel, if_neg h₂, Nat.log_of_lt (by omega)]

/-- The fuel-based integer log2 agrees with the library binary logarithm. -/
theorem intLog2_eq_log2 (n : Nat) : intLog2 n = Nat.log2 n := by
  rw [intLog2, log2Fuel_eq_log n n le_rfl, Nat.log2_eq_log_two]

theorem log2_ne_zero_iff (n : Nat) : intLog2 n ≠ 0 ↔ 2 ≤ n := by
  rw [Ne, intLog2_eq_log2, Nat.log2_eq_log_two, Nat.log_eq_zero_iff]
  omega

/-! ### Claim theorems: weight adjuster (C7, C8, C10) and weighted recorder (C9) -/

/-- C7: for every asset and every pledge amount strictly greater than the
pledge base amount, improve_v_token_weight followed by withdraw_v_token_pledge
with the same pledge amount both succeed and return the adjust score of that
asset to its value before the pair (in this Nat model no saturation occurs). -/
theorem raise_lower_inverse (baseAmount assetId pledgeAmount : Nat) (s : MintState)
    (h : pledgeAmount > baseAmount) :
    (improve_v_token_weight baseAmount assetId pledgeAmount s).1 = .ok () ∧
    (withdraw_v_token_pledge baseAmount assetId pledgeAmount
      (improve_v_token_weight baseAmount assetId pledgeAmount s).2).1 = .ok () ∧
    (mapGet (withdraw_v_token_pledge baseAmount assetId pledgeAmount
        (improve_v_token_weight baseAmount assetId pledgeAmount s).2).2.vtokenWeightScore
      (0, 0) assetId).2 = (mapGet s.vtokenWeightScore (0, 0) assetId).2 := by
  have hd : pledgeAmount - baseAmount ≠ 0 := Nat.sub_ne_zero_of_lt h
  simp [improve_v_token_weight, withdraw_v_token_pledge, h, checkedIntLog2, hd,
    mapGet_mapMutate]

/-- C7 witness at base 10, asset 3, pledge 14, starting adjust score 5. -/
theorem raise_lower_inverse_witness :
    14 > 10 ∧
    ((improve_v_token_weight 10 3 14 ⟨0, (0, 0), ((0, 0), 0, 0), [], [(3, 2, 5)], []⟩).1
        = .ok () ∧
      (withdraw_v_token_pledge 10 3 14
        (improve_v_token_weight 10 3 14
          ⟨0, (0, 0), ((0, 0), 0, 0), [], [(3, 2, 5)], []⟩).2).1 = .ok () ∧
      (mapGet (withdraw_v_token_pledge 10 3 14
          (improve_v_token_weight 10 3 14
            ⟨0, (0, 0), ((0, 0), 0, 0), [], [(3, 2, 5)], []⟩).2).2.vtokenWeightScore
        (0, 0) 3).2 =
        (mapGet (⟨0, (0, 0), ((0, 0), 0, 0), [], [(3, 2, 5)], []⟩ :
          MintState).vtokenWeightScore (0, 0) 3).2) :=
  ⟨by decide, raise_lower_inverse 10 3 14 _ (by decide)⟩

/-- C8: improve_v_token_weight and withdraw_v_token_pledge fail with
PledgeAmountNotEnough exactly when the pledge amount is at most the base
amount (so a pledge equal to the base fails), changing no state; when the
pledge exceeds the base they succeed and add (respectively
saturating-subtract) the floor of log2 of the pledge delta to the adjust
score of the asset. -/
theorem weight_adjuster_errors (baseAmount assetId pledgeAmount : Nat) (s : MintState) :
    (pledgeAmount ≤ baseAmount →
      improve_v_token_weight baseAmount assetId pledgeAmount s =
        (.error .PledgeAmountNotEnough, s) ∧
      withdraw_v_token_pledge baseAmount assetId pledgeAmount s =
        (.error .PledgeAmountNotEnough, s)) ∧
    (pledgeAmount > baseAmount →
      (improve_v_token_weight baseAmount assetId pledgeAmount s).1 = .ok () ∧
      mapGet (improve_v_token_weight baseAmount assetId pledgeAmount s).2.vtokenWeightScore
          (0, 0) assetId =
        ((mapGet s.vtokenWeightScore (0, 0) assetId).1,
         (mapGet s.vtokenWeightScore (0, 0) assetId).2 +
           intLog2 (pledgeAmount - baseAmount)) ∧
      (withdraw_v_token_pledge baseAmount assetId pledgeAmount s).1 = .ok () ∧
      mapGet (withdraw_v_token_pledge baseAmount assetId pledgeAmount s).2.vtokenWeightScore
          (0, 0) assetId =
        ((mapGet s.vtokenWeightScore (0, 0) assetId).1,
         (mapGet s.vtokenWeightScore (0, 0) assetId).2 -
           intLog2 (pledgeAmount - baseAmount))) := by
  constructor
  · intro hle
    have h : ¬ pledgeAmount > baseAmount := by omega
    simp [improve_v_token_weight, withdraw_v_token_pledge, h]
  · intro h
    have hd : pledgeAmount - baseAmount ≠ 0 := Nat.sub_ne_zero_of_lt h
    simp [improve_v_token_weight, withdraw_v_token_pledge, h, checkedIntLog2, hd,
      mapGet_mapMutate]

/-- C8 witness: a pledge of exactly the base (5) fails with
PledgeAmountNotEnough and leaves the state unchanged, and a pledge of 9
succeeds adding log2 4 = 2 to the adjust score. -/
theorem weight_adjuster_errors_witness :
    (improve_v_token_weight 5 1 5 ⟨0, (0, 0), ((0, 0), 0, 0), [], [(1, 0, 3)], []⟩ =
      (.error .PledgeAmountNotEnough, ⟨0, (0, 0), ((0, 0), 0, 0), [], [(1, 0, 3)], []⟩) ∧
     withdraw_v_token_pledge 5 1 5 ⟨0, (0, 0), ((0, 0), 0, 0), [], [(1, 0, 3)], []⟩ =
      (.error .PledgeAmountNotEnough, ⟨0, (0, 0), ((0, 0), 0, 0), [], [(1, 0, 3)], []⟩)) ∧
    mapGet (improve_v_token_weight 5 1 9
        ⟨0, (0, 0), ((0, 0), 0, 0), [], [(1, 0, 3)], []⟩).2.vtokenWeightScore (0, 0) 1 =
      (0, 5) :=
  ⟨(weight_adjuster_errors 5 1 5 _).1 (by decide),
   (((weight_adjuster_errors 5 1 9
      ⟨0, (0, 0), ((0, 0), 0, 0), [], [(1, 0, 3)], []⟩).2 (by decide)).2.1).trans
     (by decide)⟩

/-- C9: mint_bnc_by_weight fails with AssetScoreNotExist and changes nothing
when the asset has no VtokenWeightScore entry; otherwise it succeeds, adds the
amount to the (asset, minter) credit (creating it if absent), raises the
max-single-mint watermark when the amount exceeds it, increments the pending
tx count by one, and touches nothing else. -/
theorem weighted_recorder_errors (minter mintAmount assetId : Nat) (s : MintState) :
    (mapContains s.vtokenWeightScore assetId = false →
      mint_bnc_by_weight minter mintAmount assetId s = (.error .AssetScoreNotExist, s)) ∧
    (mapContains s.vtokenWeightScore assetId = true →
      (mint_bnc_by_weight minter mintAmount assetId s).1 = .ok () ∧
      mapGet (mint_bnc_by_weight minter mintAmount assetId s).2.vtokenWeightMint 0
          (assetId, minter) =
        mapGet s.vtokenWeightMint 0 (assetId, minter) + mintAmount ∧
      (mint_bnc_by_weight minter mintAmount assetId s).2.bncMonitor =
        (s.bncMonitor.1,
         (if mintAmount > s.bncMonitor.2.1 then mintAmount else s.bncMonitor.2.1),
         s.bncMonitor.2.2 + 1) ∧
      (mint_bnc_by_weight minter mintAmount assetId s).2.bncSum = s.bncSum ∧
      (mint_bnc_by_weight minter mintAmount assetId s).2.bncPrice = s.bncPrice ∧
      (mint_bnc_by_weight minter mintAmount assetId s).2.bncMint = s.bncMint ∧
      (mint_bnc_by_weight minter mintAmount assetId s).2.vtokenWeightScore =
        s.vtokenWeightScore) := by
  constructor
  · intro h
    simp [mint_bnc_by_weight, h]
  · intro h
    simp [mint_bnc_by_weight, h, mapGet_mapAdd]

/-- C9 witness: recording against the unregistered asset 9 fails and leaves
the state unchanged; recording 7 for minter 4 under the registered asset 1
succeeds, credits (1, 4), raises the watermark from 2 to 7, and increments the
tx count. -/
theorem weighted_recorder_errors_witness :
    mint_bnc_by_weight 4 7 9 ⟨3, (0, 1), ((0, 0), 2, 5), [], [(1, 0, 3)], []⟩ =
      (.error .AssetScoreNotExist, ⟨3, (0, 1), ((0, 0), 2, 5), [], [(1, 0, 3)], []⟩) ∧
    ((mint_bnc_by_weight 4 7 1 ⟨3, (0, 1), ((0, 0), 2, 5), [], [(1, 0, 3)], []⟩).1
        = .ok () ∧
     mapGet (mint_bnc_by_weight 4 7 1
        ⟨3, (0, 1), ((0, 0), 2, 5), [], [(1, 0, 3)], []⟩).2.vtokenWeightMint 0 (1, 4) =
       7 ∧
     (mint_bnc_by_weight 4 7 1
        ⟨3, (0, 1), ((0, 0), 2, 5), [], [(1, 0, 3)], []⟩).2.bncMonitor =
       ((0, 0), 7, 6)) :=
  ⟨(weighted_recorder_errors 4 7 9 _).1 (by decide),
   by
    have h := (weighted_recorder_errors 4 7 1
      ⟨3, (0, 1), ((0, 0), 2, 5), [], [(1, 0, 3)], []⟩).2 (by decide)
    exact ⟨h.1, (h.2.1).trans (by decide), (h.2.2.1).trans (by decide)⟩⟩

/-- Concrete state for the C10 counterexample: empty storage. -/
def s0 : MintState := ⟨0, (0, 0), ((0, 0), 0, 0), [], [], []⟩

/-- C10 counterexample: with pledge base 0, pledging 1 against the
unregistered asset 7 succeeds and creates the AssetWeight entry, but the
created weight is log2(1) = 0 — the total weight of the new entry is zero,
refuting that the pledge always gives the asset a non-zero weight. -/
theorem pledge_registers_asset_counterexample :
    (improve_v_token_weight 0 7 1 s0).1 = .ok () ∧
    (improve_v_token_weight 0 7 1 s0).2.vtokenWeightScore = [(7, 0, 0)] ∧
    (mapGet (improve_v_token_weight 0 7 1 s0).2.vtokenWeightScore (0, 0) 7).1 +
      (mapGet (improve_v_token_weight 0 7 1 s0).2.vtokenWeightScore (0, 0) 7).2 = 0 := by
  refine ⟨rfl, rfl, rfl⟩

/-- C10 amended: pledging against an unregistered asset with pledge amount
above the base succeeds and silently registers the asset: improve creates the
entry (0, floor(log2 (pledge - base))) — non-zero exactly when the pledge
delta is at least 2 — withdraw creates (0, 0), and the registered entry then
accepts weighted mints. -/
theorem pledge_registers_asset_amended (baseAmount assetId pledgeAmount : Nat)
    (s : MintState) (habs : mapContains s.vtokenWeightScore assetId = false)
    (h : pledgeAmount > baseAmount) :
    (improve_v_token_weight baseAmount assetId pledgeAmount s).1 = .ok () ∧
    mapContains (improve_v_token_weight baseAmount assetId pledgeAmount
      s).2.vtokenWeightScore assetId = true ∧
    mapGet (improve_v_token_weight baseAmount assetId pledgeAmount s).2.vtokenWeightScore
      (0, 0) assetId = (0, intLog2 (pledgeAmount - baseAmount)) ∧
    (intLog2 (pledgeAmount - baseAmount) ≠ 0 ↔ 2 ≤ pledgeAmount - baseAmount) ∧
    (withdraw_v_token_pledge baseAmount assetId pledgeAmount s).1 = .ok () ∧
    mapGet (withdraw_v_token_pledge baseAmount assetId pledgeAmount s).2.vtokenWeightScore
      (0, 0) assetId = (0, 0) ∧
    (mint_bnc_by_weight 0 0 assetId
      (improve_v_token_weight baseAmount assetId pledgeAmount s).2).1 = .ok () := by
  have hd : pledgeAmount - baseAmount ≠ 0 := Nat.sub_ne_zero_of_lt h
  have h0 : mapGet s.vtokenWeightScore (0 : Nat × Nat) assetId = 0 :=
    mapGet_of_not_contains _ _ _ habs
  refine ⟨?_, ?_, ?_, log2_ne_zero_iff _, ?_, ?_, ?_⟩ <;>
    simp [improve_v_token_weight, withdraw_v_token_pledge, mint_bnc_by_weight, h,
      checkedIntLog2, hd, mapGet_mapMutate, mapContains_mapMutate, h0]

/-- C10 amended witness: pledge base 0, pledge 4 on the unregistered asset 7
creates the entry (0, 2). -/
theorem pledge_registers_asset_amended_witness :
    mapContains (s0.vtokenWeightScore) 7 = false ∧ 4 > 0 ∧
    ((improve_v_token_weight 0 7 4 s0).1 = .ok () ∧
     mapContains (improve_v_token_weight 0 7 4 s0).2.vtokenWeightScore 7 = true ∧
     mapGet (improve_v_token_weight 0 7 4 s0).2.vtokenWeightScore (0, 0) 7 =
       (0, intLog2 4) ∧
     (intLog2 4 ≠ 0 ↔ 2 ≤ 4) ∧
     (withdraw_v_token_pledge 0 7 4 s0).1 = .ok () ∧
     mapGet (withdraw_v_token_pledge 0 7 4 s0).2.vtokenWeightScore (0, 0) 7 = (0, 0) ∧
     (mint_bnc_by_weight 0 0 7 (improve_v_token_weight 0 7 4 s0).2).1 = .ok ()) :=
  ⟨by decide, by decide,
   by simpa using pledge_registers_asset_amended 0 7 4 s0 (by decide) (by decide)⟩

/-! ### Flat distribution: payout characterization and rounding bounds (C1) -/

theorem creditSum_nil : creditSum [] = 0 := rfl

theorem creditSum_cons (e : Nat × Nat) (l : List (Nat × Nat)) :
    creditSum (e :: l) = e.2 + creditSum l := by
  simp [creditSum]

theorem payEach_all_true (dep : Nat → Nat → Bool) (hdep : ∀ a v, dep a v = true)
    (pool total : Nat) (l : List (Nat × Nat)) :
    payEach dep pool total l = (true, flatPayouts pool total l) := by
  induction l with
  | nil => rfl
  | cons e rest ih =>
    obtain ⟨minter, point⟩ := e
    by_cases hr : point * pool / total = 0 <;>
      simp [payEach, flatPayouts, hr, hdep, ih]

theorem creditSum_flatPayouts (pool total : Nat) (l : List (Nat × Nat)) :
    creditSum (flatPayouts pool total l) = (l.map (fun e => e.2 * pool / total)).sum := by
  induction l with
  | nil => rfl
  | cons e rest ih =>
    obtain ⟨minter, point⟩ := e
    by_cases hr : point * pool / total = 0 <;>
      simp [flatPayouts, creditSum_cons, hr, ih]

theorem sum_div_mod (pool total : Nat) (l : List (Nat × Nat)) :
    total * (l.map (fun e => e.2 * pool / total)).sum
      + (l.map (fun e => e.2 * pool % total)).sum = creditSum l * pool := by
  induction l with
  | nil => simp [creditSum]
  | cons e rest ih =>
    simp only [List.map_cons, List.sum_cons, creditSum_cons]
    have hdm := Nat.div_add_mod (e.2 * pool) total
    calc total * (e.2 * pool / total + (rest.map (fun x => x.2 * pool / total)).sum)
          + (e.2 * pool % total + (rest.map (fun x => x.2 * pool % total)).sum)
        = (total * (e.2 * pool / total) + e.2 * pool % total)
          + (total * (rest.map (fun x => x.2 * pool / total)).sum
             + (rest.map (fun x => x.2 * pool % total)).sum) := by ring
      _ = e.2 * pool + creditSum rest * pool := by rw [hdm, ih]
      _ = (e.2 + creditSum rest) * pool := by ring

theorem sum_mod_bound (pool total : Nat) (htotal : total ≠ 0) (l : List (Nat × Nat)) :
    (l.map (fun e => e.2 * pool % total)).sum
      ≤ (l.filter (fun e => decide (e.2 ≠ 0))).length * (total - 1) := by
  induction l with
  | nil => simp
  | cons e rest ih =>
    by_cases hz : e.2 = 0
    · simp only [List.map_cons, List.sum_cons, List.filter_cons, hz]
      simpa using ih
    · have hr : e.2 * pool % total ≤ total - 1 := by
        have := Nat.mod_lt (e.2 * pool) (by omega : 0 < total)
        omega
      have hlen : (List.filter (fun x => decide (x.2 ≠ 0)) (e :: rest)).length
          = (rest.filter (fun x => decide (x.2 ≠ 0))).length + 1 := by
        simp [List.filter_cons, hz]
      rw [List.map_cons, List.sum_cons, hlen]
      calc e.2 * pool % total + (rest.map (fun x => x.2 * pool % total)).sum
          ≤ (total - 1) + (rest.filter (fun x => decide (x.2 ≠ 0))).length * (total - 1) :=
            Nat.add_le_add hr ih
        _ = ((rest.filter (fun x => decide (x.2 ≠ 0))).length + 1) * (total - 1) := by ring

theorem creditSum_ne_zero_count (l : List (Nat × Nat)) (h : creditSum l ≠ 0) :
    0 < (l.filter (fun e => decide (e.2 ≠ 0))).length := by
  induction l with
  | nil => simp [creditSum] at h
  | cons e rest ih =>
    by_cases hz : e.2 = 0
    · rw [creditSum_cons, hz, Nat.zero_add] at h
      simpa [List.filter_cons, hz] using ih h
    · simp [List.filter_cons, hz]

theorem flat_rounding_bounds (pool total : Nat) (l : List (Nat × Nat))
    (htot : creditSum l = total) (h0 : total ≠ 0) :
    creditSum (flatPayouts pool total l) ≤ pool ∧
    pool - creditSum (flatPayouts pool total l) <
      (l.filter (fun e => decide (e.2 ≠ 0))).length := by
  have hq := creditSum_flatPayouts pool total l
  have hdm := sum_div_mod pool total l
  rw [htot] at hdm
  set Q := (l.map (fun e => e.2 * pool / total)).sum with hQ
  set R := (l.map (fun e => e.2 * pool % total)).sum with hR
  set n := (l.filter (fun e => decide (e.2 ≠ 0))).length with hn
  have hRb : R ≤ n * (total - 1) := sum_mod_bound pool total h0 l
  have hnpos : 0 < n := creditSum_ne_zero_count l (by rw [htot]; exact h0)
  have hQP : Q ≤ pool := by
    by_contra hc
    push_neg at hc
    have hlt : total * pool < total * Q :=
      mul_lt_mul_of_pos_left hc (by omega : 0 < total)
    have : total * Q ≤ total * pool := by
      calc total * Q ≤ total * Q + R := Nat.le_add_right _ _
        _ = total * pool := hdm
    omega
  have key : total * (pool - Q) = R := by
    have hsplit : total * (pool - Q) + total * Q = total * pool := by
      rw [← Nat.mul_add]
      congr 1
      omega
    omega
  have h1 : n * (total - 1) < n * total :=
    mul_lt_mul_of_pos_left (by omega : total - 1 < total) hnpos
  have h2 : total * (pool - Q) < n * total := lt_of_le_of_lt (key ▸ hRb) h1
  have h3 : total * (pool - Q) < total * n := by rw [Nat.mul_comm n total] at h2; exact h2
  exact ⟨by rw [hq]; exact hQP, by rw [hq]; exact Nat.lt_of_mul_lt_mul_left h3⟩

/-- C1: when the emission pool and the total flat credit are both non-zero and
every deposit succeeds, issue_bnc succeeds, pays each participant with credit
c exactly floor(c * pool / totalCredit) skipping zero payouts, resets the
bookkeeping, and the payout sum is at most the pool while the rounding loss
pool - sum(payouts) is strictly below the number of participants holding
non-zero credit. -/
theorem flat_distribution_correct (dep : Nat → Nat → Bool) (s : MintState)
    (hpool : s.bncSum ≠ 0) (hcred : creditSum s.bncMint ≠ 0)
    (hdep : ∀ a v, dep a v = true) :
    issue_bnc dep s =
      ⟨.ok (), { s with bncSum := 0, bncMint := [], bncMonitor := ((0, 0), 0, 0) },
        flatPayouts s.bncSum (creditSum s.bncMint) s.bncMint⟩ ∧
    creditSum (flatPayouts s.bncSum (creditSum s.bncMint) s.bncMint) ≤ s.bncSum ∧
    s.bncSum - creditSum (flatPayouts s.bncSum (creditSum s.bncMint) s.bncMint) <
      (s.bncMint.filter (fun e => decide (e.2 ≠ 0))).length := by
  have hb := flat_rounding_bounds s.bncSum (creditSum s.bncMint) s.bncMint rfl hcred
  refine ⟨?_, hb.1, hb.2⟩
  simp [issue_bnc, hpool, hcred, payEach_all_true dep hdep]

/-- Concrete flat-model state of the spec scenario: pool 100, credits 1 and 3. -/
def sFlat : MintState := ⟨100, (0, 0), ((0, 0), 0, 0), [(1, 1), (2, 3)], [], []⟩

/-- The always-succeeding deposit oracle. -/
def depAll : Nat → Nat → Bool := fun _ _ => true

/-- C1 witness: the spec scenario pool = 100 with credits 1 and 3 pays 25 and
75 and resets the pool. -/
theorem flat_distribution_correct_witness :
    sFlat.bncSum ≠ 0 ∧ creditSum sFlat.bncMint ≠ 0 ∧
    (issue_bnc depAll sFlat =
      ⟨.ok (), { sFlat with bncSum := 0, bncMint := [], bncMonitor := ((0, 0), 0, 0) },
        flatPayouts sFlat.bncSum (creditSum sFlat.bncMint) sFlat.bncMint⟩ ∧
      creditSum (flatPayouts sFlat.bncSum (creditSum sFlat.bncMint) sFlat.bncMint)
        ≤ sFlat.bncSum ∧
      sFlat.bncSum -
        creditSum (flatPayouts sFlat.bncSum (creditSum sFlat.bncMint) sFlat.bncMint) <
        (sFlat.bncMint.filter (fun e => decide (e.2 ≠ 0))).length) ∧
    (issue_bnc depAll sFlat).payouts = [(1, 25), (2, 75)] :=
  ⟨by decide, by decide,
   flat_distribution_correct depAll sFlat (by decide) (by decide) (fun _ _ => rfl),
   by decide⟩

/-! ### Weighted distribution (C2), reset frame (C5) and error handling (C6) -/

theorem payAssets_all_true (dep : Nat → Nat → Bool) (hdep : ∀ a v, dep a v = true)
    (pool totalScore : Nat) (mintMap : List ((Nat × Nat) × Nat))
    (scores : List (Nat × Nat × Nat)) :
    payAssets dep pool totalScore mintMap scores =
      (true, weightedPayouts pool totalScore mintMap scores) := by
  induction scores with
  | nil => rfl
  | cons e rest ih =>
    obtain ⟨assetId, baseScore, adjustScore⟩ := e
    by_cases hp : creditSum (assetEntries mintMap assetId) = 0 <;>
      simp [payAssets, weightedPayouts, hp, ih, payEach_all_true dep hdep]

/-- C2: with a non-zero pool, a non-zero total weight, and every deposit
succeeding, issue_bnc_by_weight succeeds: every asset with weight
w = base + adjust gets share floor(w * pool / totalWeight); an asset whose
total participant credit is zero is skipped entirely; otherwise every
participant with credit c under the asset is paid floor(c * share / p),
zero payouts skipped - exactly the weightedPayouts list - and the
bookkeeping is reset. -/
theorem weighted_distribution_correct (dep : Nat → Nat → Bool) (s : MintState)
    (hpool : s.bncSum ≠ 0) (hscore : scoreSum s.vtokenWeightScore ≠ 0)
    (hdep : ∀ a v, dep a v = true) :
    issue_bnc_by_weight dep s =
      some ⟨.ok (), { s with bncSum := 0, vtokenWeightMint := [],
                             bncMonitor := ((0, 0), 0, 0) },
        weightedPayouts s.bncSum (scoreSum s.vtokenWeightScore)
          s.vtokenWeightMint s.vtokenWeightScore⟩ := by
  simp [issue_bnc_by_weight, hpool, hscore, payAssets_all_true dep hdep]

/-- The spec scenario state for the weighted model: pool 40, assets 1 and 2
with weights 1 and 3, one participant (account 11, credit 5) under asset 1
and two participants (accounts 21, 22 with credits 1, 2) under asset 2. -/
def sWeighted : MintState :=
  ⟨40, (0, 0), ((0, 0), 0, 0), [],
   [(1, 1, 0), (2, 3, 0)], [((1, 11), 5), ((2, 21), 1), ((2, 22), 2)]⟩

/-- C2 witness: in the scenario the asset shares are 10 = 1 * 40 / 4 and
30 = 3 * 40 / 4, the sole participant of asset 1 receives 10, and the two
participants of asset 2 receive 10 and 20. -/
theorem weighted_distribution_correct_witness :
    sWeighted.bncSum ≠ 0 ∧ scoreSum sWeighted.vtokenWeightScore ≠ 0 ∧
    issue_bnc_by_weight depAll sWeighted =
      some ⟨.ok (), { sWeighted with bncSum := 0, vtokenWeightMint := [],
                                     bncMonitor := ((0, 0), 0, 0) },
        weightedPayouts sWeighted.bncSum (scoreSum sWeighted.vtokenWeightScore)
          sWeighted.vtokenWeightMint sWeighted.vtokenWeightScore⟩ ∧
    (1 + 0) * sWeighted.bncSum / scoreSum sWeighted.vtokenWeightScore = 10 ∧
    (3 + 0) * sWeighted.bncSum / scoreSum sWeighted.vtokenWeightScore = 30 ∧
    weightedPayouts sWeighted.bncSum (scoreSum sWeighted.vtokenWeightScore)
      sWeighted.vtokenWeightMint sWeighted.vtokenWeightScore =
      [(11, 10), (21, 10), (22, 20)] :=
  ⟨by decide, by decide,
   weighted_distribution_correct depAll sWeighted (by decide) (by decide) (fun _ _ => rfl),
   by decide, by decide, by decide⟩

/-- C5: a distribution round (flat or weighted) that returns success leaves
the pool at zero, the credit map of its model empty, and the monitor at
((0,0),0,0); the weighted round leaves the asset weight map unchanged. -/
theorem distribution_reset_frame :
    (∀ (dep : Nat → Nat → Bool) (s : MintState) (r : IssueOutcome),
      issue_bnc dep s = r → r.res = .ok () →
      r.st.bncSum = 0 ∧ r.st.bncMint = [] ∧ r.st.bncMonitor = ((0, 0), 0, 0)) ∧
    (∀ (dep : Nat → Nat → Bool) (s : MintState) (r : IssueOutcome),
      issue_bnc_by_weight dep s = some r → r.res = .ok () →
      r.st.bncSum = 0 ∧ r.st.vtokenWeightMint = [] ∧
      r.st.bncMonitor = ((0, 0), 0, 0) ∧
      r.st.vtokenWeightScore = s.vtokenWeightScore) := by
  constructor
  · intro dep s r heq hok
    simp only [issue_bnc] at heq
    split_ifs at heq <;> subst heq <;> simp_all
  · intro dep s r heq hok
    simp only [issue_bnc_by_weight] at heq
    split_ifs at heq <;> cases heq <;> simp_all

/-- The weighted outcome of the scenario state, used to witness C5. -/
def wOutcome : IssueOutcome :=
  ⟨.ok (), ⟨0, (0, 0), ((0, 0), 0, 0), [], [(1, 1, 0), (2, 3, 0)], []⟩,
   [(11, 10), (21, 10), (22, 20)]⟩

/-- C5 witness: the concrete flat and weighted scenario rounds succeed and
the theorem yields the reset state. -/
theorem distribution_reset_frame_witness :
    ((issue_bnc depAll sFlat).res = .ok () ∧
     (issue_bnc depAll sFlat).st.bncSum = 0 ∧
     (issue_bnc depAll sFlat).st.bncMint = [] ∧
     (issue_bnc depAll sFlat).st.bncMonitor = ((0, 0), 0, 0)) ∧
    (issue_bnc_by_weight depAll sWeighted = some wOutcome ∧
     wOutcome.res = .ok () ∧
     wOutcome.st.bncSum = 0 ∧ wOutcome.st.vtokenWeightMint = [] ∧
     wOutcome.st.bncMonitor = ((0, 0), 0, 0) ∧
     wOutcome.st.vtokenWeightScore = sWeighted.vtokenWeightScore) :=
  ⟨⟨rfl, distribution_reset_frame.1 depAll sFlat (issue_bnc depAll sFlat) rfl rfl⟩,
   ⟨rfl, rfl, distribution_reset_frame.2 depAll sWeighted wOutcome rfl rfl⟩⟩

theorem payEach_fail_at (dep : Nat → Nat → Bool) (pool total : Nat)
    (pre post : List (Nat × Nat)) (m c : Nat)
    (hpre : ∀ e ∈ pre, dep e.1 (e.2 * pool / total) = true)
    (hc : c * pool / total ≠ 0) (hf : dep m (c * pool / total) = false) :
    payEach dep pool total (pre ++ (m, c) :: post) = (false, flatPayouts pool total pre) := by
  induction pre with
  | nil => simp [payEach, flatPayouts, hc, hf]
  | cons e rest ih =>
    obtain ⟨m₀, c₀⟩ := e
    have hd := hpre (m₀, c₀) (by simp)
    have hrest : ∀ x ∈ rest, dep x.1 (x.2 * pool / total) = true := fun x hx =>
      hpre x (by simp [hx])
    by_cases hr : c₀ * pool / total = 0 <;>
      simp [payEach, flatPayouts, hr, hd, ih hrest]

theorem payEach_ok_of (dep : Nat → Nat → Bool) (pool total : Nat) (l : List (Nat × Nat))
    (h : ∀ x ∈ l, x.2 * pool / total ≠ 0 → dep x.1 (x.2 * pool / total) = true) :
    payEach dep pool total l = (true, flatPayouts pool total l) := by
  induction l with
  | nil => rfl
  | cons e rest ih =>
    obtain ⟨m₀, c₀⟩ := e
    have hrest : ∀ x ∈ rest, x.2 * pool / total ≠ 0 → dep x.1 (x.2 * pool / total) = true :=
      fun x hx => h x (by simp [hx])
    by_cases hr : c₀ * pool / total = 0
    · simp [payEach, flatPayouts, hr, ih hrest]
    · have hd := h (m₀, c₀) (by simp) hr
      simp [payEach, flatPayouts, hr, hd, ih hrest]

/-- Every deposit the weighted round attempts under the asset of entry e
succeeds: each participant entry of that asset whose pro-rata reward is
non-zero is accepted by the oracle. -/
abbrev assetDepositsOk (dep : Nat → Nat → Bool) (pool totalScore : Nat)
    (mintMap : List ((Nat × Nat) × Nat)) (e : Nat × Nat × Nat) : Prop :=
  ∀ x ∈ assetEntries mintMap e.1,
    x.2 * ((e.2.1 + e.2.2) * pool / totalScore) /
      creditSum (assetEntries mintMap e.1) ≠ 0 →
    dep x.1 (x.2 * ((e.2.1 + e.2.2) * pool / totalScore) /
      creditSum (assetEntries mintMap e.1)) = true

theorem payAssets_fail_at (dep : Nat → Nat → Bool) (pool totalScore : Nat)
    (mintMap : List ((Nat × Nat) × Nat)) (preA postA : List (Nat × Nat × Nat))
    (aid b adj : Nat) (pre post : List (Nat × Nat)) (m c : Nat)
    (hEnt : assetEntries mintMap aid = pre ++ (m, c) :: post)
    (hp : creditSum (assetEntries mintMap aid) ≠ 0)
    (hpre : ∀ x ∈ pre, dep x.1 (x.2 * ((b + adj) * pool / totalScore) /
        creditSum (assetEntries mintMap aid)) = true)
    (hc : c * ((b + adj) * pool / totalScore) /
        creditSum (assetEntries mintMap aid) ≠ 0)
    (hf : dep m (c * ((b + adj) * pool / totalScore) /
        creditSum (assetEntries mintMap aid)) = false)
    (hA : ∀ e ∈ preA, assetDepositsOk dep pool totalScore mintMap e) :
    payAssets dep pool totalScore mintMap (preA ++ (aid, b, adj) :: postA) =
      (false, weightedPayouts pool totalScore mintMap preA ++
        flatPayouts ((b + adj) * pool / totalScore)
          (creditSum (assetEntries mintMap aid)) pre) := by
  revert hA
  induction preA with
  | nil =>
    intro hA
    simp only [List.nil_append, payAssets, weightedPayouts]
    rw [if_neg hp]
    rw [hEnt] at hpre hc hf
    rw [hEnt]
    rw [payEach_fail_at dep ((b + adj) * pool / totalScore)
      (creditSum (pre ++ (m, c) :: post)) pre post m c hpre hc hf]
    simp
  | cons e₀ preA' ih =>
    intro hA
    obtain ⟨aid₀, b₀, adj₀⟩ := e₀
    have hA₀ : assetDepositsOk dep pool totalScore mintMap (aid₀, b₀, adj₀) :=
      hA (aid₀, b₀, adj₀) (by simp)
    have hA' : ∀ x ∈ preA', assetDepositsOk dep pool totalScore mintMap x :=
      fun x hx => hA x (by simp [hx])
    simp only [List.cons_append, payAssets, weightedPayouts, List.append_eq]
    by_cases hp₀ : creditSum (assetEntries mintMap aid₀) = 0
    · rw [if_pos hp₀, if_pos hp₀]
      exact ih hA'
    · rw [if_neg hp₀, if_neg hp₀]
      rw [payEach_ok_of dep ((b₀ + adj₀) * pool / totalScore)
        (creditSum (assetEntries mintMap aid₀)) (assetEntries mintMap aid₀) hA₀]
      rw [ih hA']
      simp [List.append_assoc]

/-- C6: the precondition checks of both rounds fail before any mutation or
payout (BncAmountNotExist on an empty pool, MinterNotExist on zero flat
credit); in both the flat and the weighted round a refused deposit aborts
immediately with DepositBncFailure, the participants iterated before the
failure keep their payouts (in the weighted round: the fully paid earlier
assets plus the failing asset's participants before the refused one) while
later entries are not paid, and the pool, the credit maps and the monitor
stay at their pre-round values on every error of either round. -/
theorem partial_failure_handling :
    (∀ (dep : Nat → Nat → Bool) (s : MintState), s.bncSum = 0 →
      issue_bnc dep s = ⟨.error .BncAmountNotExist, s, []⟩) ∧
    (∀ (dep : Nat → Nat → Bool) (s : MintState), s.bncSum ≠ 0 →
      creditSum s.bncMint = 0 →
      issue_bnc dep s = ⟨.error .MinterNotExist, s, []⟩) ∧
    (∀ (dep : Nat → Nat → Bool) (s : MintState) (pre post : List (Nat × Nat)) (m c : Nat),
      s.bncSum ≠ 0 → creditSum s.bncMint ≠ 0 →
      s.bncMint = pre ++ (m, c) :: post →
      (∀ x ∈ pre, dep x.1 (x.2 * s.bncSum / creditSum s.bncMint) = true) →
      c * s.bncSum / creditSum s.bncMint ≠ 0 →
      dep m (c * s.bncSum / creditSum s.bncMint) = false →
      issue_bnc dep s =
        ⟨.error .DepositBncFailure, s, flatPayouts s.bncSum (creditSum s.bncMint) pre⟩) ∧
    (∀ (dep : Nat → Nat → Bool) (s : MintState) (preA postA : List (Nat × Nat × Nat))
       (aid b adj : Nat) (pre post : List (Nat × Nat)) (m c : Nat),
      s.bncSum ≠ 0 →
      scoreSum s.vtokenWeightScore ≠ 0 →
      s.vtokenWeightScore = preA ++ (aid, b, adj) :: postA →
      (∀ e ∈ preA, assetDepositsOk dep s.bncSum (scoreSum s.vtokenWeightScore)
        s.vtokenWeightMint e) →
      assetEntries s.vtokenWeightMint aid = pre ++ (m, c) :: post →
      creditSum (assetEntries s.vtokenWeightMint aid) ≠ 0 →
      (∀ x ∈ pre, dep x.1
        (x.2 * ((b + adj) * s.bncSum / scoreSum s.vtokenWeightScore) /
          creditSum (assetEntries s.vtokenWeightMint aid)) = true) →
      c * ((b + adj) * s.bncSum / scoreSum s.vtokenWeightScore) /
        creditSum (assetEntries s.vtokenWeightMint aid) ≠ 0 →
      dep m (c * ((b + adj) * s.bncSum / scoreSum s.vtokenWeightScore) /
        creditSum (assetEntries s.vtokenWeightMint aid)) = false →
      issue_bnc_by_weight dep s =
        some ⟨.error .DepositBncFailure, s,
          weightedPayouts s.bncSum (scoreSum s.vtokenWeightScore)
            s.vtokenWeightMint preA ++
          flatPayouts ((b + adj) * s.bncSum / scoreSum s.vtokenWeightScore)
            (creditSum (assetEntries s.vtokenWeightMint aid)) pre⟩) ∧
    (∀ (dep : Nat → Nat → Bool) (s : MintState) (e : MintError),
      (issue_bnc dep s).res = .error e → (issue_bnc dep s).st = s) ∧
    (∀ (dep : Nat → Nat → Bool) (s : MintState) (r : IssueOutcome) (e : MintError),
      issue_bnc_by_weight dep s = some r → r.res = .error e → r.st = s) ∧
    (∀ (dep : Nat → Nat → Bool) (s : MintState), s.bncSum = 0 →
      issue_bnc_by_weight dep s = some ⟨.error .BncAmountNotExist, s, []⟩) := by
  refine ⟨?_, ?_, ?_, ?_, ?_, ?_, ?_⟩
  · intro dep s h
    simp [issue_bnc, h]
  · intro dep s h1 h2
    simp [issue_bnc, h1, h2]
  · intro dep s pre post m c h1 h2 hmint hpre hc hf
    simp only [issue_bnc]
    rw [hmint] at h2 hpre hc hf
    rw [hmint]
    rw [if_neg h1, if_neg h2]
    rw [payEach_fail_at dep s.bncSum (creditSum (pre ++ (m, c) :: post)) pre post m c
      hpre hc hf]
    simp
  · intro dep s preA postA aid b adj pre post m c h1 hT hscore hA hEnt hp hpre hc hf
    have hT' : ¬(s.vtokenWeightScore ≠ [] ∧ scoreSum s.vtokenWeightScore = 0) :=
      fun hx => hT hx.2
    simp only [issue_bnc_by_weight]
    rw [if_neg h1, if_neg hT']
    rw [hscore] at hA hpre hc hf
    rw [hscore]
    rw [payAssets_fail_at dep s.bncSum (scoreSum (preA ++ (aid, b, adj) :: postA))
      s.vtokenWeightMint preA postA aid b adj pre post m c hEnt hp hpre hc hf hA]
    simp
  · intro dep s e h
    simp only [issue_bnc] at h ⊢
    split_ifs at h ⊢ <;> simp_all
  · intro dep s r e heq hres
    simp only [issue_bnc_by_weight] at heq
    split_ifs at heq <;> cases heq <;> simp_all
  · intro dep s h
    simp [issue_bnc_by_weight, h]

/-- A deposit oracle that only accepts deposits into account 1. -/
def depOnly1 : Nat → Nat → Bool := fun a _ => a == 1

/-- Concrete flat state for the C6 witness: pool 10, credits 5 and 5. -/
def sFail : MintState := ⟨10, (0, 0), ((0, 0), 0, 0), [(1, 5), (2, 5)], [], []⟩

/-- A deposit oracle that refuses deposits into account 22 only. -/
def depNot22 : Nat → Nat → Bool := fun a _ => a != 22

/-- C6 witness.  Flat round: with deposits into account 2 refused, the round
pays account 1 its 5, then aborts with DepositBncFailure leaving the
pre-round state.  Weighted round, on the spec scenario state: with deposits
into account 22 refused, asset 1 is fully paid (account 11 gets 10), account
21 gets its 10 under asset 2, then the round aborts at account 22 with
DepositBncFailure leaving the pre-round state, so account 22's 20 is never
paid. -/
theorem partial_failure_handling_witness :
    (sFail.bncSum ≠ 0 ∧ creditSum sFail.bncMint ≠ 0 ∧
     sFail.bncMint = [(1, 5)] ++ (2, 5) :: [] ∧
     (∀ x ∈ [((1 : Nat), (5 : Nat))],
       depOnly1 x.1 (x.2 * sFail.bncSum / creditSum sFail.bncMint) = true) ∧
     5 * sFail.bncSum / creditSum sFail.bncMint ≠ 0 ∧
     depOnly1 2 (5 * sFail.bncSum / creditSum sFail.bncMint) = false ∧
     issue_bnc depOnly1 sFail =
       ⟨.error .DepositBncFailure, sFail,
         flatPayouts sFail.bncSum (creditSum sFail.bncMint) [(1, 5)]⟩ ∧
     flatPayouts sFail.bncSum (creditSum sFail.bncMint) [(1, 5)] = [(1, 5)]) ∧
    (sWeighted.bncSum ≠ 0 ∧
     scoreSum sWeighted.vtokenWeightScore ≠ 0 ∧
     sWeighted.vtokenWeightScore = [(1, 1, 0)] ++ (2, 3, 0) :: [] ∧
     (∀ e ∈ [((1 : Nat), (1 : Nat), (0 : Nat))],
       assetDepositsOk depNot22 sWeighted.bncSum (scoreSum sWeighted.vtokenWeightScore)
         sWeighted.vtokenWeightMint e) ∧
     assetEntries sWeighted.vtokenWeightMint 2 = [(21, 1)] ++ (22, 2) :: [] ∧
     creditSum (assetEntries sWeighted.vtokenWeightMint 2) ≠ 0 ∧
     (∀ x ∈ [((21 : Nat), (1 : Nat))],
       depNot22 x.1
         (x.2 * ((3 + 0) * sWeighted.bncSum / scoreSum sWeighted.vtokenWeightScore) /
           creditSum (assetEntries sWeighted.vtokenWeightMint 2)) = true) ∧
     2 * ((3 + 0) * sWeighted.bncSum / scoreSum sWeighted.vtokenWeightScore) /
       creditSum (assetEntries sWeighted.vtokenWeightMint 2) ≠ 0 ∧
     depNot22 22
       (2 * ((3 + 0) * sWeighted.bncSum / scoreSum sWeighted.vtokenWeightScore) /
         creditSum (assetEntries sWeighted.vtokenWeightMint 2)) = false ∧
     issue_bnc_by_weight depNot22 sWeighted =
       some ⟨.error .DepositBncFailure, sWeighted,
         weightedPayouts sWeighted.bncSum (scoreSum sWeighted.vtokenWeightScore)
           sWeighted.vtokenWeightMint [(1, 1, 0)] ++
         flatPayouts ((3 + 0) * sWeighted.bncSum / scoreSum sWeighted.vtokenWeightScore)
           (creditSum (assetEntries sWeighted.vtokenWeightMint 2)) [(21, 1)]⟩ ∧
     weightedPayouts sWeighted.bncSum (scoreSum sWeighted.vtokenWeightScore)
         sWeighted.vtokenWeightMint [(1, 1, 0)] ++
       flatPayouts ((3 + 0) * sWeighted.bncSum / scoreSum sWeighted.vtokenWeightScore)
         (creditSum (assetEntries sWeighted.vtokenWeightMint 2)) [(21, 1)] =
       [(11, 10), (21, 10)]) :=
  ⟨⟨by decide, by decide, rfl, by decide, by decide, by decide,
    partial_failure_handling.2.2.1 depOnly1 sFail [(1, 5)] [] 2 5 (by decide) (by decide)
      rfl (by decide) (by decide) (by decide),
    by decide⟩,
   ⟨by decide, by decide, rfl, by decide, rfl, by decide, by decide, by decide, by decide,
    partial_failure_handling.2.2.2.1 depNot22 sWeighted [(1, 1, 0)] [] 2 3 0 [(21, 1)] []
      22 2 (by decide) (by decide) rfl (by decide) rfl (by decide) (by decide) (by decide)
      (by decide),
    by decide⟩⟩

/-! ### Finalization trigger (C3) and price oscillator (C4) -/

theorem monitorBump_price (a b c : Nat) (s : MintState) :
    (monitorBump a b c s).bncPrice = s.bncPrice := by
  unfold monitorBump
  split <;> rfl

theorem issue_w_preserves_price (dep : Nat → Nat → Bool) (s : MintState)
    (r : IssueOutcome) (heq : issue_bnc_by_weight dep s = some r) :
    r.st.bncPrice = s.bncPrice := by
  simp only [issue_bnc_by_weight] at heq
  split_ifs at heq <;> cases heq <;> simp_all

theorem triggerIssue_invoked (dep : Nat → Nat → Bool) (cur a b : Nat) (s₂ : MintState)
    (x : MintState × Bool × List (Nat × Nat))
    (h : triggerIssue dep cur a b s₂ = some x) : x.2.1 = true := by
  unfold triggerIssue at h
  cases hw : issue_bnc_by_weight dep s₂ with
  | none => rw [hw] at h; cases h
  | some r₀ =>
    rw [hw] at h
    obtain ⟨res₀, st₀, pay₀⟩ := r₀
    cases res₀ <;> cases h <;> rfl

theorem triggerIssue_price (dep : Nat → Nat → Bool) (cur a b : Nat) (s₂ : MintState)
    (x : MintState × Bool × List (Nat × Nat))
    (h : triggerIssue dep cur a b s₂ = some x) : x.1.bncPrice = s₂.bncPrice := by
  unfold triggerIssue at h
  cases hw : issue_bnc_by_weight dep s₂ with
  | none => rw [hw] at h; cases h
  | some r₀ =>
    rw [hw] at h
    have hpr := issue_w_preserves_price dep s₂ r₀ hw
    obtain ⟨res₀, st₀, pay₀⟩ := r₀
    cases res₀ <;> cases h
    · rw [monitorBump_price]; exact hpr
    · exact hpr

theorem on_finalize_price_eq (dep : Nat → Nat → Bool) (ph mi mt cur : Nat)
    (s : MintState) (r : MintState × Bool × List (Nat × Nat))
    (h : on_finalize dep ph mi mt cur s = some r) :
    r.1.bncPrice =
      (if s.bncPrice.2 = 0 then s.bncPrice
       else if cur - s.bncPrice.1 = ph then (cur, s.bncPrice.2 / 2) else s.bncPrice) := by
  simp only [on_finalize, count_bnc] at h
  split_ifs at h ⊢
  · cases h; rfl
  · rw [triggerIssue_price _ _ _ _ _ _ h]
  · cases h; rw [monitorBump_price]
  · rw [triggerIssue_price _ _ _ _ _ _ h]
  · cases h; rw [monitorBump_price]

theorem on_finalize_zero_price (dep : Nat → Nat → Bool) (ph mi mt cur : Nat)
    (s : MintState) (hz : s.bncPrice.2 = 0) :
    on_finalize dep ph mi mt cur s = some (s, false, []) := by
  simp [on_finalize, hz]

theorem on_finalize_price_mono (dep : Nat → Nat → Bool) (ph mi mt cur : Nat)
    (s : MintState) (r : MintState × Bool × List (Nat × Nat))
    (h : on_finalize dep ph mi mt cur s = some r) :
    r.1.bncPrice.2 ≤ s.bncPrice.2 := by
  have heq := on_finalize_price_eq dep ph mi mt cur s r h
  split_ifs at heq <;> rw [heq]
  exact Nat.div_le_self _ _

theorem finalizeSeq_price_mono (dep : Nat → Nat → Bool) (ph mi mt : Nat) :
    ∀ (bs : List Nat) (s x : MintState),
      finalizeSeq dep ph mi mt bs s = some x → x.bncPrice.2 ≤ s.bncPrice.2 := by
  intro bs
  induction bs with
  | nil =>
    intro s x h
    cases h
    exact le_refl _
  | cons b rest ih =>
    intro s x h
    simp only [finalizeSeq] at h
    cases hw : on_finalize dep ph mi mt b s with
    | none => rw [hw] at h; cases h
    | some p =>
      obtain ⟨s₁, inv, ps⟩ := p
      rw [hw] at h
      exact le_trans (ih s₁ x h) (on_finalize_price_mono dep ph mi mt b s _ hw)

theorem finalizeSeq_zero_price (dep : Nat → Nat → Bool) (ph mi mt : Nat) :
    ∀ (bs : List Nat) (s : MintState), s.bncPrice.2 = 0 →
      finalizeSeq dep ph mi mt bs s = some s := by
  intro bs
  induction bs with
  | nil => intro s _; rfl
  | cons b rest ih =>
    intro s hz
    simp only [finalizeSeq]
    rw [on_finalize_zero_price dep ph mi mt b s hz]
    exact ih s hz

/-- C3: whenever on_finalize runs with a non-zero stored price and completes,
the distribution engine is invoked exactly when (blocks since the last
trigger equal MaxIssueBlockInterval AND the accrued pool is non-zero AND the
max single mint seen is non-zero) OR the pending tx count is at least
MaxTxAmount - with the AND-chain binding tighter than the OR - so a tx count
at or above MaxTxAmount alone forces a distribution. -/
theorem finalize_trigger_condition (dep : Nat → Nat → Bool) (ph mi mt cur : Nat)
    (s s' : MintState) (inv : Bool) (ps : List (Nat × Nat))
    (hp : s.bncPrice.2 ≠ 0)
    (h : on_finalize dep ph mi mt cur s = some (s', inv, ps)) :
    (inv = true ↔
      ((cur - s.bncMonitor.1.1 = mi ∧
        s.bncSum + (if cur - s.bncPrice.1 = ph then s.bncPrice.2 / 2 else s.bncPrice.2) ≠ 0 ∧
        s.bncMonitor.2.1 ≠ 0) ∨
       s.bncMonitor.2.2 ≥ mt)) ∧
    (s.bncMonitor.2.2 ≥ mt → inv = true) := by
  simp only [on_finalize, count_bnc] at h
  rw [if_neg hp] at h
  by_cases hh : cur - s.bncPrice.1 = ph
  · rw [if_pos hh] at h ⊢
    by_cases hC : (cur - s.bncMonitor.1.1 = mi ∧ s.bncSum + s.bncPrice.2 / 2 ≠ 0 ∧
        s.bncMonitor.2.1 ≠ 0) ∨ s.bncMonitor.2.2 ≥ mt
    · rw [if_pos hC] at h
      have hinv := triggerIssue_invoked _ _ _ _ _ _ h
      exact ⟨iff_of_true hinv hC, fun _ => hinv⟩
    · rw [if_neg hC] at h
      cases h
      exact ⟨iff_of_false (by simp) hC, fun hb => absurd (Or.inr hb) hC⟩
  · rw [if_neg hh] at h ⊢
    by_cases hC : (cur - s.bncMonitor.1.1 = mi ∧ s.bncSum + s.bncPrice.2 ≠ 0 ∧
        s.bncMonitor.2.1 ≠ 0) ∨ s.bncMonitor.2.2 ≥ mt
    · rw [if_pos hC] at h
      have hinv := triggerIssue_invoked _ _ _ _ _ _ h
      exact ⟨iff_of_true hinv hC, fun _ => hinv⟩
    · rw [if_neg hC] at h
      cases h
      exact ⟨iff_of_false (by simp) hC, fun hb => absurd (Or.inr hb) hC⟩

/-- Concrete state for the C3 witness: price 5, tx count 7, everything else
empty, so only the tx-count fast path can fire. -/
def sFin : MintState := ⟨0, (0, 5), ((0, 0), 0, 7), [], [], []⟩

/-- C3 witness: with MaxTxAmount 5 and pending tx count 7, the block-interval
conjunction is false (interval 50, one block elapsed, watermark 0) yet the
tx-count clause alone triggers the distribution. -/
theorem finalize_trigger_condition_witness :
    sFin.bncPrice.2 ≠ 0 ∧
    on_finalize depAll 100 50 5 1 sFin =
      some (⟨0, (0, 5), ((0, 0), 0, 0), [], [], []⟩, true, []) ∧
    ¬ (1 - sFin.bncMonitor.1.1 = 50) ∧ sFin.bncMonitor.2.2 ≥ 5 ∧
    ((true = true ↔
      ((1 - sFin.bncMonitor.1.1 = 50 ∧
        sFin.bncSum + (if 1 - sFin.bncPrice.1 = 100 then sFin.bncPrice.2 / 2
          else sFin.bncPrice.2) ≠ 0 ∧
        sFin.bncMonitor.2.1 ≠ 0) ∨
       sFin.bncMonitor.2.2 ≥ 5)) ∧
     (sFin.bncMonitor.2.2 ≥ 5 → true = true)) :=
  ⟨by decide, by decide, by decide, by decide,
   finalize_trigger_condition depAll 100 50 5 1 sFin
     ⟨0, (0, 5), ((0, 0), 0, 0), [], [], []⟩ true [] (by decide) (by decide)⟩

/-- C4: the stored price never increases across on_finalize, also over any
block sequence; with a non-zero price and exactly PriceHalfBlockInterval
blocks elapsed since the recorded block, the price point becomes
(currentBlock, price / 2) (integer halving, so price 1 becomes 0); and with a
zero stored price on_finalize does nothing at all - no accrual, no halving,
no trigger, no payouts - hence, by iteration, permanently. -/
theorem price_oscillator_invariants (dep : Nat → Nat → Bool) (ph mi mt : Nat) :
    (∀ (cur : Nat) (s : MintState) (r : MintState × Bool × List (Nat × Nat)),
      on_finalize dep ph mi mt cur s = some r → r.1.bncPrice.2 ≤ s.bncPrice.2) ∧
    (∀ (bs : List Nat) (s x : MintState),
      finalizeSeq dep ph mi mt bs s = some x → x.bncPrice.2 ≤ s.bncPrice.2) ∧
    (∀ (cur : Nat) (s : MintState) (r : MintState × Bool × List (Nat × Nat)),
      s.bncPrice.2 ≠ 0 → cur - s.bncPrice.1 = ph →
      on_finalize dep ph mi mt cur s = some r →
      r.1.bncPrice = (cur, s.bncPrice.2 / 2)) ∧
    (∀ (cur : Nat) (s : MintState), s.bncPrice.2 = 0 →
      on_finalize dep ph mi mt cur s = some (s, false, [])) ∧
    (∀ (bs : List Nat) (s : MintState), s.bncPrice.2 = 0 →
      finalizeSeq dep ph mi mt bs s = some s) := by
  refine ⟨on_finalize_price_mono dep ph mi mt, finalizeSeq_price_mono dep ph mi mt,
    ?_, on_finalize_zero_price dep ph mi mt, finalizeSeq_zero_price dep ph mi mt⟩
  intro cur s r hp hh h
  have heq := on_finalize_price_eq dep ph mi mt cur s r h
  rw [if_neg hp, if_pos hh] at heq
  exact heq

/-- Concrete state for the C4 witness: price 5 recorded at block 0. -/
def sHalf : MintState := ⟨0, (0, 5), ((0, 0), 0, 0), [], [], []⟩

/-- Concrete state with zero price for the C4 witness. -/
def sZero : MintState := ⟨0, (0, 0), ((0, 0), 0, 0), [], [], []⟩

/-- The state on_finalize produces from sHalf at block 3. -/
def sHalfOut : MintState := ⟨2, (3, 2), ((0, 0), 0, 0), [], [], []⟩

/-- C4 witness: with halving interval 3 at block 3 the price point becomes
(3, 2) = (3, 5 / 2); the resulting price 2 is at most 5; a zero-price state
is left untouched by one call and by a whole block sequence. -/
theorem price_oscillator_invariants_witness :
    sHalf.bncPrice.2 ≠ 0 ∧ 3 - sHalf.bncPrice.1 = 3 ∧
    on_finalize depAll 3 50 99 3 sHalf =
      some (sHalfOut, false, []) ∧
    ((sHalfOut, false, ([] : List (Nat × Nat))).1.bncPrice = (3, sHalf.bncPrice.2 / 2)) ∧
    ((sHalfOut, false, ([] : List (Nat × Nat))).1.bncPrice.2 ≤ sHalf.bncPrice.2) ∧
    sZero.bncPrice.2 = 0 ∧
    on_finalize depAll 3 50 99 7 sZero = some (sZero, false, []) ∧
    finalizeSeq depAll 3 50 99 [1, 2, 3] sZero = some sZero :=
  ⟨by decide, by decide, by decide,
   (price_oscillator_invariants depAll 3 50 99).2.2.1 3 sHalf
     (sHalfOut, false, ([] : List (Nat × Nat)))
     (by decide) (by decide) (by decide),
   (price_oscillator_invariants depAll 3 50 99).1 3 sHalf
     (sHalfOut, false, ([] : List (Nat × Nat)))
     (by decide),
   by decide,
   (price_oscillator_invariants depAll 3 50 99).2.2.2.1 7 sZero (by decide),
   (price_oscillator_invariants depAll 3 50 99).2.2.2.2 [1, 2, 3] sZero (by decide)⟩

end VtokenMint
